import Mathlib

/-!
Verification development for the Bayesian optimization core
(horovod/common/optim/bayesian_optimization.cc).

The embedding represents Eigen vectors as lists of reals and matrices as
lists of row vectors.  The external collaborators of the core (the Gaussian
process surrogate, the L-BFGS local optimizer, the standard library random
machinery and erfc) are not part of the translated source file; they are
modelled from the specification as abstract parameters or standard
mathematical definitions, each marked in its doc comment.
-/

open MeasureTheory

/-- Modelled from the spec: the C math library complementary error function
used by the source (std erfc), in its standard mathematical definition
erfc x = (2 / sqrt pi) * integral over (x, infinity) of exp (-t^2). -/
noncomputable def erfc (x : ℝ) : ℝ :=
  (2 / Real.sqrt Real.pi) * ∫ t in Set.Ioi x, Real.exp (-(t ^ 2))

/-- Source line 32: NORM_PDF_C = sqrt(2 * M_PI). -/
noncomputable def NORM_PDF_C : ℝ := Real.sqrt (2 * Real.pi)

/-- Modelled from the spec: the C math library constant M_SQRT1_2, the
reciprocal of the square root of two. -/
noncomputable def M_SQRT1_2 : ℝ := (Real.sqrt 2)⁻¹

/-- Source lines 136-138: the standard normal density lambda pdf. -/
noncomputable def normPdf (x : ℝ) : ℝ :=
  Real.exp (-(x * x) / 2) / NORM_PDF_C

/-- Source lines 140-142: the standard normal cumulative distribution lambda
cdf, computed through the complementary error function. -/
noncomputable def normCdf (x : ℝ) : ℝ :=
  0.5 * erfc (-x * M_SQRT1_2)

/-- Eigen maxCoeff on a vector: maximum of the coefficients.  Eigen asserts
the vector is nonempty; the empty case is given an arbitrary value. -/
def maxCoeff : List ℝ → ℝ
  | [] => 0
  | x :: xs => xs.foldl max x

/-- Source lines 122-151: BayesianOptimization::ExpectedImprovement for a
single query point.  The surrogate predictions (gpr Predict after Fit) enter
as the function parameters mu and sigma; x_sample is the list of previously
observed inputs.  Line 149 replaces the value by zero exactly where the
predictive standard deviation is zero. -/
noncomputable def ExpectedImprovement (mu sigma : List ℝ → ℝ) (xi : ℝ)
    (x_sample : List (List ℝ)) (x : List ℝ) : ℝ :=
  let mu_x := mu x
  let sigma_x := sigma x
  let mu_sample_opt := maxCoeff (x_sample.map mu)
  let imp := mu_x - mu_sample_opt - xi
  let z := imp / sigma_x
  let ei := imp * normCdf z + sigma_x * normPdf z
  if sigma_x ≠ 0 then ei else 0

/-- The spec formula for Expected Improvement with an explicit improvement
threshold, stated from the words of section 4.3 so that the source function
can be compared against it (in particular against a raw-output threshold). -/
noncomputable def eiWithThreshold (mu sigma : List ℝ → ℝ) (xi : ℝ)
    (mu_sample_opt : ℝ) (x : List ℝ) : ℝ :=
  let imp := mu x - mu_sample_opt - xi
  let z := imp / sigma x
  if sigma x ≠ 0 then imp * normCdf z + sigma x * normPdf z else 0

/-- Source lines 153-160: BayesianOptimization::CheckBounds.  The loop walks
the argument vector, reading bounds_[i] at each position until a violated
coordinate returns false early; reading past the end of the bounds sequence
is an out-of-range access, modelled as the value none. -/
def checkBounds {α : Type} [LinearOrder α] : List (α × α) → List α → Option Bool
  | _, [] => some true
  | [], _ :: _ => none
  | b :: bs, v :: vs => if v < b.1 ∨ b.2 < v then some false else checkBounds bs vs

/-- The value std numeric_limits double max used as the out-of-bounds penalty
and as the initial sentinel, as an exact real: (2^53 - 1) * 2^971. -/
noncomputable def DBL_MAX : ℝ := ((2 : ℝ) ^ 53 - 1) * 2 ^ 971

/-- Source lines 88-92: the minimization objective min_obj.  Within bounds it
is the negated acquisition function, otherwise the maximum double penalty.
The gradient side output is produced by the external ApproxFPrime collaborator
and does not affect the returned value.  An out-of-range bounds access inside
CheckBounds is undefined behavior in the source; the model folds that case
into the penalty branch, and the theorems about this function restrict to
arguments of the session dimensionality, where the branch is never taken. -/
noncomputable def min_obj (mu sigma : List ℝ → ℝ) (xi : ℝ)
    (bounds : List (ℝ × ℝ)) (x_sample : List (List ℝ)) (x : List ℝ) : ℝ :=
  if checkBounds bounds x = some true
  then -(ExpectedImprovement mu sigma xi x_sample x)
  else DBL_MAX

/-- Modelled from the spec: one draw of std uniform_real_distribution over a
bound interval (section 4.1), fed by one value u of the random source. -/
def uniformDraw (b : ℝ × ℝ) (u : ℝ) : ℝ := b.1 + u * (b.2 - b.1)

/-- Source lines 103-106: the random start point of restart i.  The random
source is modelled from the spec (section 5) as a stream of values consumed
sequentially, one per dimension per restart, starting at offset base. -/
def startPoint (bounds : List (ℝ × ℝ)) (gen : ℕ → ℝ) (base i : ℕ) : List ℝ :=
  bounds.enum.map fun jb => uniformDraw jb.2 (gen (base + i * bounds.length + jb.1))

/-- Source lines 113-116: keep the candidate when its objective value is
strictly below the best value recorded so far. -/
noncomputable def chooseBest (best cand : List ℝ × ℝ) : List ℝ × ℝ :=
  if cand.2 < best.2 then cand else best

/-- Source lines 82-120: BayesianOptimization::ProposeLocation.  The external
L-BFGS solver is modelled from the spec (section 4.4) as a function from the
scalar objective and the start point to the converged point and its objective
value.  The y_sample argument is carried but never read, as in the source. -/
noncomputable def ProposeLocation (mu sigma : List ℝ → ℝ) (xi : ℝ)
    (bounds : List (ℝ × ℝ)) (x_sample y_sample : List (List ℝ))
    (solver : (List ℝ → ℝ) → List ℝ → List ℝ × ℝ)
    (gen : ℕ → ℝ) (base : ℕ) (n_restarts : ℕ) : List ℝ :=
  (((List.range n_restarts).map fun i =>
      solver (min_obj mu sigma xi bounds x_sample) (startPoint bounds gen base i)).foldl
    chooseBest (List.replicate bounds.length 0, DBL_MAX)).1

/-- Modelled from the spec: the external surrogate collaborator (section 4.5).
Fit followed by Predict is deterministic given the sample matrices and the
noise parameter alpha, so the predictive mean and standard deviation are
functions of alpha, the observed inputs, the observed outputs and the query
point.  The source of the regressor itself is not part of the embedded file. -/
structure GaussianProcessRegressor where
  predictMean : ℝ → List (List ℝ) → List (List ℝ) → List ℝ → ℝ
  predictStd : ℝ → List (List ℝ) → List (List ℝ) → List ℝ → ℝ

/-- The optimization session state: bounds, surrogate noise parameter,
exploration parameter, the two sample lists, and the position of the random
source stream (the state of the member generator gen_). -/
structure BayesianOptimization where
  bounds_ : List (ℝ × ℝ)
  alpha_ : ℝ
  xi_ : ℝ
  x_samples_ : List (List ℝ)
  y_samples_ : List (List ℝ)
  genState_ : ℕ

/-- Source lines 43-48: the constructor.  A fresh session has empty sample
lists and a freshly seeded random source. -/
def mkBayesianOptimization (bounds : List (ℝ × ℝ)) (alpha xi : ℝ) :
    BayesianOptimization :=
  ⟨bounds, alpha, xi, [], [], 0⟩

/-- Source lines 56-59: the vector-output AddSample overload appends to both
sample lists. -/
def AddSampleVec (s : BayesianOptimization) (x y : List ℝ) :
    BayesianOptimization :=
  { s with x_samples_ := s.x_samples_ ++ [x], y_samples_ := s.y_samples_ ++ [y] }

/-- Source lines 50-54: the scalar AddSample overload wraps the output into a
length-one vector and delegates. -/
def AddSample (s : BayesianOptimization) (x : List ℝ) (y : ℝ) :
    BayesianOptimization :=
  AddSampleVec s x [y]

/-- Source lines 77-80: Clear empties the two sample lists and nothing else. -/
def Clear (s : BayesianOptimization) : BayesianOptimization :=
  { s with x_samples_ := [], y_samples_ := [] }

/-- A sequence of scalar AddSample calls. -/
def addSamples (s : BayesianOptimization) (l : List (List ℝ × ℝ)) :
    BayesianOptimization :=
  l.foldl (fun t p => AddSample t p.1 p.2) s

/-- Source lines 61-75: NextSample assembles the sample matrices in insertion
order, fits the surrogate, and runs ProposeLocation with the default 25
restarts. -/
noncomputable def NextSample (gpr : GaussianProcessRegressor)
    (solver : (List ℝ → ℝ) → List ℝ → List ℝ × ℝ)
    (gen : ℕ → ℝ) (s : BayesianOptimization) : List ℝ :=
  ProposeLocation (gpr.predictMean s.alpha_ s.x_samples_ s.y_samples_)
    (gpr.predictStd s.alpha_ s.x_samples_ s.y_samples_)
    s.xi_ s.bounds_ s.x_samples_ s.y_samples_ solver gen s.genState_ 25

/-- A degenerate surrogate instance predicting mean zero and standard
deviation zero everywhere. -/
def gprZero : GaussianProcessRegressor :=
  ⟨fun _ _ _ _ => 0, fun _ _ _ _ => 0⟩

/-- A surrogate instance predicting mean zero and standard deviation one
everywhere. -/
def gprUnit : GaussianProcessRegressor :=
  ⟨fun _ _ _ _ => 0, fun _ _ _ _ => 1⟩

/-- A solver instance returning the start point unchanged together with its
objective value; it satisfies the converged-value contract. -/
noncomputable def solverId : (List ℝ → ℝ) → List ℝ → List ℝ × ℝ :=
  fun f x0 => (x0, f x0)

/-- A solver instance whose converged point moves each coordinate up by ten,
reported with its objective value; it satisfies the converged-value contract
while always terminating outside a narrow box. -/
noncomputable def solverShift : (List ℝ → ℝ) → List ℝ → List ℝ × ℝ :=
  fun f x0 => (x0.map (fun v => v + 10), f (x0.map (fun v => v + 10)))

/-- A random source stream that always yields zero. -/
def genZero : ℕ → ℝ := fun _ => 0

/-- A random source stream yielding zero for the first 25 draws and one from
then on, separating a fresh session from one that has already consumed one
proposal run of entropy in one dimension. -/
noncomputable def genSplit : ℕ → ℝ := fun n => if n < 25 then 0 else 1

/-- A session over the box [2, 3] holding one observed sample. -/
noncomputable def sessionBox23 : BayesianOptimization :=
  AddSample (mkBayesianOptimization [((2 : ℝ), 3)] 1 (1 / 100)) [5 / 2] 0

/-- A session over the box [0, 1] whose random source has already been
advanced by 25 draws (one earlier proposal run in one dimension), still
holding its earlier sample. -/
noncomputable def sessionUsed : BayesianOptimization :=
  ⟨[((0 : ℝ), 1)], 1, 0, [[1 / 2]], [[3]], 25⟩

/-- The sample list added after the clear in the reset scenario. -/
def samplesAfterClear : List (List ℝ × ℝ) := [([(0 : ℝ)], (0 : ℝ))]

/-- C2: where the predictive standard deviation is exactly zero, Expected
Improvement is exactly zero, whatever the predictive mean, the best fitted
mean and xi are. -/
theorem ei_zero_of_sigma_zero (mu sigma : List ℝ → ℝ) (xi : ℝ)
    (x_sample : List (List ℝ)) (x : List ℝ) (h : sigma x = 0) :
    ExpectedImprovement mu sigma xi x_sample x = 0 := by
  simp [ExpectedImprovement, h]

theorem ei_zero_of_sigma_zero_witness :
    ExpectedImprovement (fun _ => 5) (fun _ => 0) (1 / 100) [[0]] [0] = 0 :=
  ei_zero_of_sigma_zero (fun _ => 5) (fun _ => 0) (1 / 100) [[0]] [0] rfl

theorem erfc_nonneg (x : ℝ) : 0 ≤ erfc x := by
  unfold erfc
  have h1 : 0 ≤ ∫ t in Set.Ioi x, Real.exp (-(t ^ 2)) :=
    setIntegral_nonneg measurableSet_Ioi fun t _ => (Real.exp_pos _).le
  have h2 : 0 ≤ 2 / Real.sqrt Real.pi := by positivity
  exact mul_nonneg h2 h1

theorem normCdf_nonneg (x : ℝ) : 0 ≤ normCdf x := by
  unfold normCdf
  have := erfc_nonneg (-x * M_SQRT1_2)
  linarith

theorem normPdf_pos (x : ℝ) : 0 < normPdf x := by
  unfold normPdf NORM_PDF_C
  positivity

/-- C3: for nonzero predictive standard deviation, Expected Improvement is
computed as imp * Phi z + sigma * phi z with imp the mean minus the best
fitted mean minus xi, z = imp / sigma, phi the standard normal density and
Phi the cumulative distribution expressed through erfc. -/
theorem ei_formula (mu sigma : List ℝ → ℝ) (xi : ℝ)
    (x_sample : List (List ℝ)) (x : List ℝ) (h : sigma x ≠ 0) :
    ExpectedImprovement mu sigma xi x_sample x =
      (mu x - maxCoeff (x_sample.map mu) - xi) *
        (0.5 * erfc (-((mu x - maxCoeff (x_sample.map mu) - xi) / sigma x) / Real.sqrt 2)) +
      sigma x *
        (Real.exp (-((mu x - maxCoeff (x_sample.map mu) - xi) / sigma x) ^ 2 / 2) /
          Real.sqrt (2 * Real.pi)) := by
  simp only [ExpectedImprovement, normCdf, normPdf, NORM_PDF_C, M_SQRT1_2, if_pos h]
  ring_nf

theorem ei_formula_witness :
    (fun _ : List ℝ => (1 : ℝ)) [0] ≠ 0 ∧
    ExpectedImprovement (fun _ => 0) (fun _ => 1) 0 [[0]] [0] =
      ((fun _ : List ℝ => (0 : ℝ)) [0] - maxCoeff ([[(0 : ℝ)]].map (fun _ => 0)) - 0) *
        (0.5 * erfc (-(((fun _ : List ℝ => (0 : ℝ)) [0] - maxCoeff ([[(0 : ℝ)]].map (fun _ => 0)) - 0) / (fun _ : List ℝ => (1 : ℝ)) [0]) / Real.sqrt 2)) +
      (fun _ : List ℝ => (1 : ℝ)) [0] *
        (Real.exp (-(((fun _ : List ℝ => (0 : ℝ)) [0] - maxCoeff ([[(0 : ℝ)]].map (fun _ => 0)) - 0) / (fun _ : List ℝ => (1 : ℝ)) [0]) ^ 2 / 2) /
          Real.sqrt (2 * Real.pi)) :=
  ⟨one_ne_zero, ei_formula (fun _ => 0) (fun _ => 1) 0 [[0]] [0] one_ne_zero⟩

theorem normPdf_lt_normPdf_zero : normPdf (-2) < normPdf 0 := by
  unfold normPdf
  have hC : 0 < NORM_PDF_C := by unfold NORM_PDF_C; positivity
  have hexp : Real.exp (-((-2 : ℝ) * -2) / 2) < Real.exp (-((0 : ℝ) * 0) / 2) := by
    apply Real.exp_lt_exp.2; norm_num
  exact (div_lt_div_iff_of_pos_right hC).2 hexp

/-- C4: the improvement threshold entering Expected Improvement is the
maximum of the fitted predictive means at the observed inputs; at a concrete
instance it differs from what a raw-output-maximum threshold would give. -/
theorem ei_threshold_fitted_means :
    (∀ (mu sigma : List ℝ → ℝ) (xi : ℝ) (x_sample : List (List ℝ)) (x : List ℝ),
      ExpectedImprovement mu sigma xi x_sample x =
        eiWithThreshold mu sigma xi (maxCoeff (x_sample.map mu)) x) ∧
    ExpectedImprovement (fun _ => 5) (fun _ => 1) 0 [[0]] [0] ≠
      eiWithThreshold (fun _ => 5) (fun _ => 1) 0 (maxCoeff [7]) [0] := by
  constructor
  · intro mu sigma xi x_sample x
    simp [ExpectedImprovement, eiWithThreshold]
  · have h1 : ExpectedImprovement (fun _ => 5) (fun _ => 1) 0 [[0]] [0] = normPdf 0 := by
      norm_num [ExpectedImprovement, maxCoeff]
    have h2 : eiWithThreshold (fun _ => 5) (fun _ => 1) 0 (maxCoeff [7]) [0] =
        (-2) * normCdf (-2) + normPdf (-2) := by
      norm_num [eiWithThreshold, maxCoeff]
    rw [h1, h2]
    have h3 := normCdf_nonneg (-2)
    have h4 := normPdf_lt_normPdf_zero
    intro heq
    nlinarith

theorem expNegSq_integrableOn (x : ℝ) :
    IntegrableOn (fun t : ℝ => Real.exp (-(t ^ 2))) (Set.Ioi x) := by
  simpa [neg_mul, one_mul] using
    (integrable_exp_neg_mul_sq (one_pos)).integrableOn (s := Set.Ioi x)

theorem hasDerivAt_negExpSq (t : ℝ) :
    HasDerivAt (fun u : ℝ => -Real.exp (-(u ^ 2)) / 2) (t * Real.exp (-(t ^ 2))) t := by
  have h1 : HasDerivAt (fun u : ℝ => -(u ^ 2)) (-(2 * t)) t := by
    simpa using (hasDerivAt_pow 2 t).neg
  have h3 := (h1.exp.neg).div_const 2
  convert h3 using 1
  ring

theorem tendsto_negExpSq :
    Filter.Tendsto (fun t : ℝ => -Real.exp (-(t ^ 2)) / 2) Filter.atTop (nhds 0) := by
  have hg : Filter.Tendsto (fun t : ℝ => Real.exp (-t ^ 2)) Filter.atTop (nhds 0) :=
    Real.tendsto_exp_atBot.comp
      (Filter.tendsto_neg_atTop_atBot.comp (Filter.tendsto_pow_atTop two_ne_zero))
  simpa using (hg.neg).div_const 2

theorem integral_Ioi_mul_expNegSq {a : ℝ} (ha : 0 ≤ a) :
    ∫ t in Set.Ioi a, t * Real.exp (-(t ^ 2)) = Real.exp (-(a ^ 2)) / 2 := by
  have hderiv : ∀ t ∈ Set.Ici a,
      HasDerivAt (fun u : ℝ => -Real.exp (-(u ^ 2)) / 2) (t * Real.exp (-(t ^ 2))) t :=
    fun t _ => hasDerivAt_negExpSq t
  have hpos : ∀ t ∈ Set.Ioi a, 0 ≤ t * Real.exp (-(t ^ 2)) :=
    fun t ht => mul_nonneg (ha.trans ht.out.le) (Real.exp_pos _).le
  have h := integral_Ioi_of_hasDerivAt_of_nonneg' hderiv hpos tendsto_negExpSq
  rw [h]; ring

theorem integrableOn_mul_expNegSq {a : ℝ} (ha : 0 ≤ a) :
    IntegrableOn (fun t : ℝ => t * Real.exp (-(t ^ 2))) (Set.Ioi a) := by
  have hderiv : ∀ t ∈ Set.Ici a,
      HasDerivAt (fun u : ℝ => -Real.exp (-(u ^ 2)) / 2) (t * Real.exp (-(t ^ 2))) t :=
    fun t _ => hasDerivAt_negExpSq t
  have hpos : ∀ t ∈ Set.Ioi a, 0 ≤ t * Real.exp (-(t ^ 2)) :=
    fun t ht => mul_nonneg (ha.trans ht.out.le) (Real.exp_pos _).le
  exact integrableOn_Ioi_deriv_of_nonneg' hderiv hpos tendsto_negExpSq

theorem expNegSq_tail_le {a : ℝ} (ha : 0 < a) :
    ∫ t in Set.Ioi a, Real.exp (-(t ^ 2)) ≤ Real.exp (-(a ^ 2)) / (2 * a) := by
  have hmono : ∫ t in Set.Ioi a, Real.exp (-(t ^ 2)) ≤
      ∫ t in Set.Ioi a, t * Real.exp (-(t ^ 2)) / a := by
    apply setIntegral_mono_on (expNegSq_integrableOn a)
      ((integrableOn_mul_expNegSq ha.le).div_const a) measurableSet_Ioi
    intro t ht
    rw [le_div_iff ha]
    have h1 : a * Real.exp (-(t ^ 2)) ≤ t * Real.exp (-(t ^ 2)) :=
      mul_le_mul_of_nonneg_right ht.out.le (Real.exp_pos _).le
    nlinarith [Real.exp_pos (-(t ^ 2))]
  rw [integral_div, integral_Ioi_mul_expNegSq ha.le] at hmono
  calc ∫ t in Set.Ioi a, Real.exp (-(t ^ 2)) ≤ Real.exp (-(a ^ 2)) / 2 / a := hmono
  _ = Real.exp (-(a ^ 2)) / (2 * a) := by rw [div_div]

theorem erfc_le_of_pos {a : ℝ} (ha : 0 < a) :
    erfc a ≤ (2 / Real.sqrt Real.pi) * (Real.exp (-(a ^ 2)) / (2 * a)) := by
  unfold erfc
  exact mul_le_mul_of_nonneg_left (expNegSq_tail_le ha) (by positivity)

theorem mills_nonneg (z : ℝ) : 0 ≤ z * normCdf z + normPdf z := by
  rcases le_or_lt 0 z with hz | hz
  · have h1 := normCdf_nonneg z
    have h2 := (normPdf_pos z).le
    have h3 := mul_nonneg hz h1
    linarith
  · have hsqrt2 : (0 : ℝ) < Real.sqrt 2 := Real.sqrt_pos.2 two_pos
    have hpi : (0 : ℝ) < Real.sqrt Real.pi := Real.sqrt_pos.2 Real.pi_pos
    have hM : (0 : ℝ) < M_SQRT1_2 := by unfold M_SQRT1_2; positivity
    have ha : 0 < -z * M_SQRT1_2 := mul_pos (neg_pos.2 hz) hM
    have htail := erfc_le_of_pos ha
    have hsq2 : Real.sqrt 2 ^ 2 = 2 := Real.sq_sqrt (by norm_num)
    have ha2 : (-z * M_SQRT1_2) ^ 2 = z ^ 2 / 2 := by
      unfold M_SQRT1_2
      rw [mul_pow, inv_pow, hsq2, neg_sq, div_eq_mul_inv]
    have hz0 : z ≠ 0 := ne_of_lt hz
    have step1 : normCdf z ≤
        0.5 * ((2 / Real.sqrt Real.pi) *
          (Real.exp (-((-z * M_SQRT1_2) ^ 2)) / (2 * (-z * M_SQRT1_2)))) := by
      unfold normCdf
      exact mul_le_mul_of_nonneg_left htail (by norm_num)
    have step2 : -z * normCdf z ≤
        -z * (0.5 * ((2 / Real.sqrt Real.pi) *
          (Real.exp (-((-z * M_SQRT1_2) ^ 2)) / (2 * (-z * M_SQRT1_2))))) :=
      mul_le_mul_of_nonneg_left step1 (by linarith)
    have hs2 : Real.sqrt 2 * Real.sqrt 2 = 2 := Real.mul_self_sqrt (by norm_num)
    have heq : -z * (0.5 * ((2 / Real.sqrt Real.pi) *
        (Real.exp (-((-z * M_SQRT1_2) ^ 2)) / (2 * (-z * M_SQRT1_2))))) = normPdf z := by
      rw [ha2]
      unfold normPdf NORM_PDF_C M_SQRT1_2
      rw [Real.sqrt_mul (by norm_num : (0 : ℝ) ≤ 2), ← pow_two z]
      field_simp
      ring_nf
      rw [hsq2]
      ring
    linarith [step2, heq.ge]

/-- C5: for strictly positive predictive standard deviation and nonnegative
xi, Expected Improvement is nonnegative whatever the predictive mean and the
best fitted mean are. -/
theorem ei_nonneg (mu sigma : List ℝ → ℝ) (xi : ℝ)
    (x_sample : List (List ℝ)) (x : List ℝ)
    (hs : 0 < sigma x) (hxi : 0 ≤ xi) :
    0 ≤ ExpectedImprovement mu sigma xi x_sample x := by
  have hne : sigma x ≠ 0 := ne_of_gt hs
  simp only [ExpectedImprovement, if_pos hne]
  set m := mu x - maxCoeff (x_sample.map mu) - xi with hm
  have hk := mills_nonneg (m / sigma x)
  have h1 : 0 ≤ sigma x * ((m / sigma x) * normCdf (m / sigma x) + normPdf (m / sigma x)) :=
    mul_nonneg hs.le hk
  have h2 : sigma x * ((m / sigma x) * normCdf (m / sigma x) + normPdf (m / sigma x)) =
      m * normCdf (m / sigma x) + sigma x * normPdf (m / sigma x) := by
    field_simp
    ring
  linarith

theorem ei_nonneg_witness :
    (0 : ℝ) < (fun _ : List ℝ => (1 : ℝ)) [0] ∧ (0 : ℝ) ≤ (0 : ℝ) ∧
    0 ≤ ExpectedImprovement (fun _ => 0) (fun _ => 1) 0 [[0]] [0] :=
  ⟨zero_lt_one, le_refl 0,
    ei_nonneg (fun _ => 0) (fun _ => 1) 0 [[0]] [0] zero_lt_one (le_refl 0)⟩

theorem checkBounds_isSome {α : Type} [LinearOrder α] (bs : List (α × α))
    (x : List α) (h : x.length ≤ bs.length) : (checkBounds bs x).isSome = true := by
  induction x generalizing bs with
  | nil => simp [checkBounds]
  | cons v vs ih =>
    cases bs with
    | nil => simp at h
    | cons b bs2 =>
      simp only [checkBounds]
      by_cases hv : v < b.1 ∨ b.2 < v
      · rw [if_pos hv]; rfl
      · rw [if_neg hv]
        exact ih bs2 (by simpa using h)

theorem checkBounds_eq_true_iff {α : Type} [LinearOrder α] (bs : List (α × α))
    (x : List α) (h : x.length ≤ bs.length) :
    checkBounds bs x = some true ↔ ∀ p ∈ x.zip bs, p.2.1 ≤ p.1 ∧ p.1 ≤ p.2.2 := by
  induction x generalizing bs with
  | nil => simp [checkBounds]
  | cons v vs ih =>
    cases bs with
    | nil => simp at h
    | cons b bs2 =>
      simp only [checkBounds, List.zip_cons_cons, List.mem_cons]
      by_cases hv : v < b.1 ∨ b.2 < v
      · rw [if_pos hv]
        constructor
        · intro hfalse; simp at hfalse
        · intro hall
          have hvb := hall (v, b) (Or.inl rfl)
          rcases hv with h1 | h2
          · exact absurd hvb.1 (not_le.2 h1)
          · exact absurd hvb.2 (not_le.2 h2)
      · rw [if_neg hv, ih bs2 (by simpa using h)]
        push_neg at hv
        constructor
        · intro hall p hp
          rcases hp with rfl | hp
          · exact hv
          · exact hall p hp
        · intro hall p hp
          exact hall p (Or.inr hp)

theorem checkBounds_eq_none {α : Type} [LinearOrder α] (bs : List (α × α))
    (x : List α) (h : bs.length < x.length)
    (hin : ∀ p ∈ x.zip bs, p.2.1 ≤ p.1 ∧ p.1 ≤ p.2.2) : checkBounds bs x = none := by
  induction x generalizing bs with
  | nil => simp at h
  | cons v vs ih =>
    cases bs with
    | nil => rfl
    | cons b bs2 =>
      simp only [checkBounds]
      have hvb := hin (v, b) (by simp)
      have hv : ¬(v < b.1 ∨ b.2 < v) := by
        rw [not_or]
        exact ⟨not_lt.2 hvb.1, not_lt.2 hvb.2⟩
      rw [if_neg hv]
      exact ih bs2 (by simpa using h) (fun p hp => hin p (by simp [hp]))

/-- C10 (amended): CheckBounds reads a bound entry for each coordinate of its
argument up to the first violated coordinate; for an argument no longer than
the bounds sequence every access is in range and the verdict depends on the
present coordinates alone, while a longer argument whose first d coordinates
all sit inside their intervals reaches the out-of-range access. -/
theorem checkBounds_access (α : Type) [LinearOrder α] (bs : List (α × α))
    (x : List α) :
    (x.length ≤ bs.length → (checkBounds bs x).isSome = true) ∧
    (x.length ≤ bs.length →
      (checkBounds bs x = some true ↔ ∀ p ∈ x.zip bs, p.2.1 ≤ p.1 ∧ p.1 ≤ p.2.2)) ∧
    (bs.length < x.length → (∀ p ∈ x.zip bs, p.2.1 ≤ p.1 ∧ p.1 ≤ p.2.2) →
      checkBounds bs x = none) :=
  ⟨fun h => checkBounds_isSome bs x h, fun h => checkBounds_eq_true_iff bs x h,
   fun h hin => checkBounds_eq_none bs x h hin⟩

theorem checkBounds_access_witness :
    checkBounds [((0 : ℚ), 1)] [(1 : ℚ), 9] = none :=
  (checkBounds_access ℚ [((0 : ℚ), 1)] [(1 : ℚ), 9]).2.2 (by decide) (by decide)

/-- C10 counterexample: an argument longer than the bounds sequence does not
always make the access precondition fail; a violated early coordinate
returns false before the out-of-range read is reached. -/
theorem checkBounds_longer_early_exit :
    ([((0 : ℚ), 1)] : List (ℚ × ℚ)).length < ([5, 0] : List ℚ).length ∧
    checkBounds [((0 : ℚ), 1)] [(5 : ℚ), 0] = some false := by decide

/-- C6: for a candidate of the session dimensionality, the minimization
objective equals the negated Expected Improvement when every coordinate sits
inside its interval (endpoints included), and equals the maximum double value
when some coordinate lies strictly outside its interval. -/
theorem min_obj_value (mu sigma : List ℝ → ℝ) (xi : ℝ) (bounds : List (ℝ × ℝ))
    (x_sample : List (List ℝ)) (x : List ℝ) (hlen : x.length = bounds.length) :
    ((∀ p ∈ x.zip bounds, p.2.1 ≤ p.1 ∧ p.1 ≤ p.2.2) →
      min_obj mu sigma xi bounds x_sample x =
        -(ExpectedImprovement mu sigma xi x_sample x)) ∧
    ((∃ p ∈ x.zip bounds, p.1 < p.2.1 ∨ p.2.2 < p.1) →
      min_obj mu sigma xi bounds x_sample x = DBL_MAX) := by
  constructor
  · intro hin
    unfold min_obj
    rw [if_pos ((checkBounds_eq_true_iff bounds x hlen.le).2 hin)]
  · rintro ⟨p, hp, hviol⟩
    unfold min_obj
    rw [if_neg]
    intro htrue
    have hvb := (checkBounds_eq_true_iff bounds x hlen.le).1 htrue p hp
    rcases hviol with h1 | h2
    · exact absurd hvb.1 (not_le.2 h1)
    · exact absurd hvb.2 (not_le.2 h2)

theorem min_obj_value_witness :
    min_obj (fun _ => 0) (fun _ => 0) 0 [((0 : ℝ), 1)] [] [1] =
      -(ExpectedImprovement (fun _ => 0) (fun _ => 0) 0 [] [1]) :=
  (min_obj_value (fun _ => 0) (fun _ => 0) 0 [((0 : ℝ), 1)] [] [1] rfl).1 (by simp)

theorem foldl_chooseBest_snd_le (l : List (List ℝ × ℝ)) (b : List ℝ × ℝ) :
    (l.foldl chooseBest b).2 ≤ b.2 := by
  induction l generalizing b with
  | nil => exact le_refl _
  | cons a t ih =>
    rw [List.foldl_cons]
    refine (ih (chooseBest b a)).trans ?_
    unfold chooseBest
    by_cases h : a.2 < b.2
    · rw [if_pos h]; exact h.le
    · rw [if_neg h]

theorem foldl_chooseBest_min (l : List (List ℝ × ℝ)) (b : List ℝ × ℝ) :
    ∀ o ∈ l, (l.foldl chooseBest b).2 ≤ o.2 := by
  induction l generalizing b with
  | nil => intro o ho; simp at ho
  | cons a t ih =>
    intro o ho
    rw [List.foldl_cons]
    rcases List.mem_cons.1 ho with rfl | ho2
    · refine (foldl_chooseBest_snd_le t (chooseBest b o)).trans ?_
      unfold chooseBest
      by_cases h : o.2 < b.2
      · rw [if_pos h]
      · rw [if_neg h]; exact le_of_not_lt h
    · exact ih (chooseBest b a) o ho2

theorem foldl_chooseBest_mem (l : List (List ℝ × ℝ)) (b : List ℝ × ℝ) :
    l.foldl chooseBest b = b ∨ l.foldl chooseBest b ∈ l := by
  induction l generalizing b with
  | nil => left; rfl
  | cons a t ih =>
    rw [List.foldl_cons]
    rcases ih (chooseBest b a) with h | h
    · rw [h]
      unfold chooseBest
      by_cases hc : a.2 < b.2
      · rw [if_pos hc]; right; exact List.mem_cons_self a t
      · rw [if_neg hc]; left; rfl
    · right; exact List.mem_cons_of_mem a h

theorem foldl_chooseBest_fixed (l : List (List ℝ × ℝ)) (b : List ℝ × ℝ)
    (h : ∀ o ∈ l, ¬ o.2 < b.2) : l.foldl chooseBest b = b := by
  induction l with
  | nil => rfl
  | cons a t ih =>
    rw [List.foldl_cons]
    have ha : chooseBest b a = b := by
      unfold chooseBest
      rw [if_neg (h a (List.mem_cons_self a t))]
    rw [ha]
    exact ih (fun o ho => h o (List.mem_cons_of_mem a ho))

/-- C7: ProposeLocation returns the converged point with the lowest objective
value across the restarts, and falls back to the zero vector of the session
dimensionality when no restart produces a value strictly below the maximum
double sentinel. -/
theorem ProposeLocation_spec (mu sigma : List ℝ → ℝ) (xi : ℝ)
    (bounds : List (ℝ × ℝ)) (x_sample y_sample : List (List ℝ))
    (solver : (List ℝ → ℝ) → List ℝ → List ℝ × ℝ) (gen : ℕ → ℝ)
    (base n_restarts : ℕ) (outs : List (List ℝ × ℝ))
    (houts : outs = (List.range n_restarts).map fun i =>
      solver (min_obj mu sigma xi bounds x_sample) (startPoint bounds gen base i)) :
    ((∀ o ∈ outs, DBL_MAX ≤ o.2) →
      ProposeLocation mu sigma xi bounds x_sample y_sample solver gen base n_restarts =
        List.replicate bounds.length 0) ∧
    ((∃ o ∈ outs, o.2 < DBL_MAX) →
      ∃ o ∈ outs,
        ProposeLocation mu sigma xi bounds x_sample y_sample solver gen base n_restarts =
          o.1 ∧ ∀ o2 ∈ outs, o.2 ≤ o2.2) := by
  subst houts
  constructor
  · intro hall
    unfold ProposeLocation
    rw [foldl_chooseBest_fixed _ _ (fun o ho => not_lt.2 (hall o ho))]
  · rintro ⟨o0, ho0, hlt⟩
    unfold ProposeLocation
    rcases foldl_chooseBest_mem
        ((List.range n_restarts).map fun i =>
          solver (min_obj mu sigma xi bounds x_sample) (startPoint bounds gen base i))
        (List.replicate bounds.length 0, DBL_MAX) with heq | hmem
    · exfalso
      have h1 := foldl_chooseBest_min
        ((List.range n_restarts).map fun i =>
          solver (min_obj mu sigma xi bounds x_sample) (startPoint bounds gen base i))
        (List.replicate bounds.length 0, DBL_MAX) o0 ho0
      rw [heq] at h1
      exact absurd hlt (not_lt.2 h1)
    · exact ⟨_, hmem, rfl, fun o2 ho2 => foldl_chooseBest_min _ _ o2 ho2⟩

theorem ProposeLocation_spec_witness :
    ProposeLocation (fun _ => 0) (fun _ => 0) 0 [((0 : ℝ), 1)] [] [] solverId
      genZero 0 0 = List.replicate 1 0 :=
  (ProposeLocation_spec (fun _ => 0) (fun _ => 0) 0 [((0 : ℝ), 1)] [] [] solverId
    genZero 0 0 [] rfl).1 (by simp)

theorem min_obj_lt_dblmax (mu sigma : List ℝ → ℝ) (xi : ℝ)
    (bounds : List (ℝ × ℝ)) (x_sample : List (List ℝ)) (x : List ℝ)
    (h : min_obj mu sigma xi bounds x_sample x < DBL_MAX) :
    checkBounds bounds x = some true := by
  by_cases hc : checkBounds bounds x = some true
  · exact hc
  · unfold min_obj at h
    rw [if_neg hc] at h
    exact absurd h (lt_irrefl _)

theorem foldl_chooseBest_inv (bounds : List (ℝ × ℝ)) (l : List (List ℝ × ℝ))
    (b : List ℝ × ℝ) (hb2 : b.2 ≤ DBL_MAX)
    (hb1 : b.1 = List.replicate bounds.length 0 ∨ checkBounds bounds b.1 = some true)
    (hl : ∀ o ∈ l, o.2 < DBL_MAX → checkBounds bounds o.1 = some true) :
    (l.foldl chooseBest b).1 = List.replicate bounds.length 0 ∨
      checkBounds bounds (l.foldl chooseBest b).1 = some true := by
  induction l generalizing b with
  | nil => exact hb1
  | cons a t ih =>
    rw [List.foldl_cons]
    by_cases hc : a.2 < b.2
    · have ha2 : a.2 < DBL_MAX := lt_of_lt_of_le hc hb2
      have hcb : chooseBest b a = a := by unfold chooseBest; rw [if_pos hc]
      rw [hcb]
      exact ih a ha2.le (Or.inr (hl a (List.mem_cons_self a t) ha2))
        (fun o ho h2 => hl o (List.mem_cons_of_mem a ho) h2)
    · have hcb : chooseBest b a = b := by unfold chooseBest; rw [if_neg hc]
      rw [hcb]
      exact ih b hb2 hb1 (fun o ho h2 => hl o (List.mem_cons_of_mem a ho) h2)

/-- C1 (amended): when the solver reports the objective value of the point it
returns, NextSample yields a point inside the configured box whenever some
restart converges to a feasible point; otherwise it yields the zero-vector
fallback, which need not lie inside the box. -/
theorem NextSample_in_bounds_or_zero (gpr : GaussianProcessRegressor)
    (solver : (List ℝ → ℝ) → List ℝ → List ℝ × ℝ) (gen : ℕ → ℝ)
    (s : BayesianOptimization)
    (hsolver : ∀ f x0, (solver f x0).2 = f (solver f x0).1) :
    checkBounds s.bounds_ (NextSample gpr solver gen s) = some true ∨
      NextSample gpr solver gen s = List.replicate s.bounds_.length 0 := by
  unfold NextSample ProposeLocation
  have h := foldl_chooseBest_inv s.bounds_
    ((List.range 25).map fun i =>
      solver (min_obj (gpr.predictMean s.alpha_ s.x_samples_ s.y_samples_)
          (gpr.predictStd s.alpha_ s.x_samples_ s.y_samples_) s.xi_ s.bounds_ s.x_samples_)
        (startPoint s.bounds_ gen s.genState_ i))
    (List.replicate s.bounds_.length 0, DBL_MAX) (le_refl _) (Or.inl rfl) ?_
  · exact h.elim Or.inr Or.inl
  · intro o ho hlt
    rcases List.mem_map.1 ho with ⟨i, _, rfl⟩
    rw [hsolver] at hlt
    exact min_obj_lt_dblmax _ _ _ _ _ _ hlt

theorem NextSample_in_bounds_or_zero_witness :
    checkBounds (mkBayesianOptimization [((0 : ℝ), 1)] 1 0).bounds_
        (NextSample gprZero solverId genZero
          (mkBayesianOptimization [((0 : ℝ), 1)] 1 0)) = some true ∨
      NextSample gprZero solverId genZero (mkBayesianOptimization [((0 : ℝ), 1)] 1 0) =
        List.replicate (mkBayesianOptimization [((0 : ℝ), 1)] 1 0).bounds_.length 0 :=
  NextSample_in_bounds_or_zero gprZero solverId genZero
    (mkBayesianOptimization [((0 : ℝ), 1)] 1 0) (fun _ _ => rfl)

theorem solverShift_fst (f : List ℝ → ℝ) (p : List ℝ) :
    (solverShift f p).1 = p.map (fun v => v + 10) := rfl

theorem min_obj_penalty (mu sigma : List ℝ → ℝ) (xi : ℝ)
    (bounds : List (ℝ × ℝ)) (x_sample : List (List ℝ)) (x : List ℝ)
    (h : checkBounds bounds x ≠ some true) :
    min_obj mu sigma xi bounds x_sample x = DBL_MAX := by
  unfold min_obj
  rw [if_neg h]

theorem propose_all_infeasible (mu sigma : List ℝ → ℝ) (xi : ℝ)
    (bounds : List (ℝ × ℝ)) (x_sample y_sample : List (List ℝ))
    (solver : (List ℝ → ℝ) → List ℝ → List ℝ × ℝ) (gen : ℕ → ℝ) (base n : ℕ)
    (hsolver : ∀ f x0, (solver f x0).2 = f (solver f x0).1)
    (h : ∀ i, checkBounds bounds
      ((solver (min_obj mu sigma xi bounds x_sample)
        (startPoint bounds gen base i)).1) ≠ some true) :
    ProposeLocation mu sigma xi bounds x_sample y_sample solver gen base n =
      List.replicate bounds.length 0 := by
  unfold ProposeLocation
  rw [foldl_chooseBest_fixed]
  intro o ho
  rcases List.mem_map.1 ho with ⟨i, _, rfl⟩
  rw [not_lt, hsolver, min_obj_penalty _ _ _ _ _ _ (h i)]

/-- C1 counterexample: with the box [2, 3], one observed sample, a degenerate
surrogate and a solver that satisfies the converged-value contract but always
terminates ten units above its start point, NextSample returns the zero
vector, which lies outside the configured box. -/
theorem NextSample_out_of_box :
    NextSample gprZero solverShift genZero sessionBox23 = [0] ∧
    checkBounds sessionBox23.bounds_ [(0 : ℝ)] = some false := by
  constructor
  · unfold NextSample
    rw [propose_all_infeasible]
    · rfl
    · exact fun _ _ => rfl
    · intro i
      rw [solverShift_fst]
      have h1 : (startPoint sessionBox23.bounds_ genZero sessionBox23.genState_ i).map
          (fun v => v + 10) = [2 + 0 * (3 - 2) + 10] := rfl
      rw [h1]
      have h2 : checkBounds sessionBox23.bounds_ [2 + 0 * (3 - 2) + 10] = some false := by
        show checkBounds [((2 : ℝ), 3)] [2 + 0 * (3 - 2) + 10] = some false
        simp only [checkBounds]
        split_ifs with hcond
        · rfl
        · exfalso
          apply hcond
          right
          norm_num
      rw [h2]
      simp
  · show checkBounds [((2 : ℝ), 3)] [(0 : ℝ)] = some false
    simp only [checkBounds]
    split_ifs with hcond
    · rfl
    · exfalso
      apply hcond
      left
      norm_num

/-- C8: NextSample is a pure function of the session state: two sessions with
equal bounds, alpha, xi, sample stores and random source state, driven by the
same surrogate, solver and random stream, produce equal proposals. -/
theorem NextSample_deterministic (gpr : GaussianProcessRegressor)
    (solver : (List ℝ → ℝ) → List ℝ → List ℝ × ℝ) (gen : ℕ → ℝ)
    (s1 s2 : BayesianOptimization)
    (hb : s1.bounds_ = s2.bounds_) (ha : s1.alpha_ = s2.alpha_)
    (hx : s1.xi_ = s2.xi_) (hsx : s1.x_samples_ = s2.x_samples_)
    (hsy : s1.y_samples_ = s2.y_samples_) (hg : s1.genState_ = s2.genState_) :
    NextSample gpr solver gen s1 = NextSample gpr solver gen s2 := by
  have hs : s1 = s2 := by
    cases s1; cases s2; simp_all
  rw [hs]

theorem NextSample_deterministic_witness :
    NextSample gprUnit solverId genZero
        (AddSample (mkBayesianOptimization [((0 : ℝ), 1)] 1 (1 / 100)) [0] 1) =
      NextSample gprUnit solverId genZero
        (⟨[((0 : ℝ), 1)], 1, 1 / 100, [[0]], [[1]], 0⟩ : BayesianOptimization) :=
  NextSample_deterministic gprUnit solverId genZero
    (AddSample (mkBayesianOptimization [((0 : ℝ), 1)] 1 (1 / 100)) [0] 1)
    (⟨[((0 : ℝ), 1)], 1, 1 / 100, [[0]], [[1]], 0⟩ : BayesianOptimization)
    rfl rfl rfl rfl rfl rfl

/-- C9 (amended): Clear removes every stored sample, so a cleared session
whose random source is still in its freshly seeded state behaves on
subsequent AddSample and NextSample calls exactly like a freshly constructed
session with the same bounds, alpha and xi.  The random source state itself
survives Clear, which is the one piece of pre-Clear state that can still
influence the proposal. -/
theorem Clear_then_add_eq_fresh (gpr : GaussianProcessRegressor)
    (solver : (List ℝ → ℝ) → List ℝ → List ℝ × ℝ) (gen : ℕ → ℝ)
    (s : BayesianOptimization) (l : List (List ℝ × ℝ)) (hg : s.genState_ = 0) :
    NextSample gpr solver gen (addSamples (Clear s) l) =
      NextSample gpr solver gen
        (addSamples (mkBayesianOptimization s.bounds_ s.alpha_ s.xi_) l) := by
  have hs : Clear s = mkBayesianOptimization s.bounds_ s.alpha_ s.xi_ := by
    cases s; simp_all [Clear, mkBayesianOptimization]
  rw [hs]

theorem Clear_then_add_eq_fresh_witness :
    NextSample gprUnit solverId genZero
        (addSamples (Clear (⟨[((0 : ℝ), 1)], 1, 0, [[1 / 2]], [[3]], 0⟩ :
          BayesianOptimization)) samplesAfterClear) =
      NextSample gprUnit solverId genZero
        (addSamples (mkBayesianOptimization [((0 : ℝ), 1)] 1 0) samplesAfterClear) :=
  Clear_then_add_eq_fresh gprUnit solverId genZero
    (⟨[((0 : ℝ), 1)], 1, 0, [[1 / 2]], [[3]], 0⟩ : BayesianOptimization)
    samplesAfterClear rfl

theorem foldl_chooseBest_all_eq (l : List (List ℝ × ℝ)) (o b : List ℝ × ℝ)
    (hall : ∀ o2 ∈ l, o2 = o) (hlt : o.2 < b.2) (hne : l ≠ []) :
    l.foldl chooseBest b = o := by
  cases l with
  | nil => exact absurd rfl hne
  | cons a t =>
    have ha : a = o := hall a (List.mem_cons_self a t)
    rw [List.foldl_cons, ha]
    have hcb : chooseBest b o = o := by unfold chooseBest; rw [if_pos hlt]
    rw [hcb]
    exact foldl_chooseBest_fixed t o (fun o2 ho2 => by
      rw [hall o2 (List.mem_cons_of_mem a ho2)]
      exact lt_irrefl _)

/-- C9 counterexample: the random source state survives Clear.  A session
that has already consumed 25 draws, once cleared and refilled with the same
sample, proposes a different point than a freshly constructed session given
the same bounds, alpha, xi and sample: the pre-Clear generator state leaks
into the proposal. -/
theorem Clear_leaks_rng_state :
    NextSample gprUnit solverId genSplit
        (addSamples (Clear sessionUsed) samplesAfterClear) ≠
      NextSample gprUnit solverId genSplit
        (addSamples (mkBayesianOptimization [((0 : ℝ), 1)] 1 0) samplesAfterClear) := by
  have hEIc : ∀ x : List ℝ,
      ExpectedImprovement (fun _ => (0 : ℝ)) (fun _ => 1) 0 [[(0 : ℝ)]] x = normPdf 0 := by
    intro x
    norm_num [ExpectedImprovement, maxCoeff]
  have hcb1 : checkBounds [((0 : ℝ), 1)] [(0 : ℝ) + 1 * (1 - 0)] = some true := by
    simp only [checkBounds]
    split_ifs with h
    · exfalso; rcases h with h | h <;> norm_num at h
    · rfl
  have hcb0 : checkBounds [((0 : ℝ), 1)] [(0 : ℝ) + 0 * (1 - 0)] = some true := by
    simp only [checkBounds]
    split_ifs with h
    · exfalso; rcases h with h | h <;> norm_num at h
    · rfl
  have hF1 : min_obj (fun _ => (0 : ℝ)) (fun _ => 1) 0 [((0 : ℝ), 1)] [[(0 : ℝ)]]
      [(0 : ℝ) + 1 * (1 - 0)] = -(normPdf 0) := by
    unfold min_obj
    rw [if_pos hcb1, hEIc]
  have hF0 : min_obj (fun _ => (0 : ℝ)) (fun _ => 1) 0 [((0 : ℝ), 1)] [[(0 : ℝ)]]
      [(0 : ℝ) + 0 * (1 - 0)] = -(normPdf 0) := by
    unfold min_obj
    rw [if_pos hcb0, hEIc]
  have hD : -(normPdf 0) < DBL_MAX := by
    have h1 := normPdf_pos 0
    have h2 : (0 : ℝ) < DBL_MAX := by unfold DBL_MAX; norm_num
    linarith
  have key1 : ProposeLocation (fun _ => (0 : ℝ)) (fun _ => 1) 0 [((0 : ℝ), 1)]
      [[(0 : ℝ)]] [[(0 : ℝ)]] solverId genSplit 25 25 = [(0 : ℝ) + 1 * (1 - 0)] := by
    unfold ProposeLocation
    have hall : ∀ o2 ∈ (List.range 25).map (fun i =>
        solverId (min_obj (fun _ => (0 : ℝ)) (fun _ => 1) 0 [((0 : ℝ), 1)] [[(0 : ℝ)]])
          (startPoint [((0 : ℝ), 1)] genSplit 25 i)),
        o2 = ([(0 : ℝ) + 1 * (1 - 0)], -(normPdf 0)) := by
      intro o2 ho2
      rcases List.mem_map.1 ho2 with ⟨i, _, rfl⟩
      have hg : genSplit (25 + i * 1 + 0) = 1 := by
        unfold genSplit
        rw [if_neg]
        omega
      have hstart : startPoint [((0 : ℝ), 1)] genSplit 25 i = [(0 : ℝ) + 1 * (1 - 0)] := by
        show [(0 : ℝ) + genSplit (25 + i * 1 + 0) * (1 - 0)] = [(0 : ℝ) + 1 * (1 - 0)]
        rw [hg]
      rw [hstart]
      show ([(0 : ℝ) + 1 * (1 - 0)],
        min_obj (fun _ => (0 : ℝ)) (fun _ => 1) 0 [((0 : ℝ), 1)] [[(0 : ℝ)]]
          [(0 : ℝ) + 1 * (1 - 0)]) = _
      rw [hF1]
    rw [foldl_chooseBest_all_eq _ ([(0 : ℝ) + 1 * (1 - 0)], -(normPdf 0)) _ hall hD
      (by simp)]
  have key2 : ProposeLocation (fun _ => (0 : ℝ)) (fun _ => 1) 0 [((0 : ℝ), 1)]
      [[(0 : ℝ)]] [[(0 : ℝ)]] solverId genSplit 0 25 = [(0 : ℝ) + 0 * (1 - 0)] := by
    unfold ProposeLocation
    have hall : ∀ o2 ∈ (List.range 25).map (fun i =>
        solverId (min_obj (fun _ => (0 : ℝ)) (fun _ => 1) 0 [((0 : ℝ), 1)] [[(0 : ℝ)]])
          (startPoint [((0 : ℝ), 1)] genSplit 0 i)),
        o2 = ([(0 : ℝ) + 0 * (1 - 0)], -(normPdf 0)) := by
      intro o2 ho2
      rcases List.mem_map.1 ho2 with ⟨i, hi, rfl⟩
      have hg : genSplit (0 + i * 1 + 0) = 0 := by
        unfold genSplit
        rw [if_pos]
        have := List.mem_range.1 hi
        omega
      have hstart : startPoint [((0 : ℝ), 1)] genSplit 0 i = [(0 : ℝ) + 0 * (1 - 0)] := by
        show [(0 : ℝ) + genSplit (0 + i * 1 + 0) * (1 - 0)] = [(0 : ℝ) + 0 * (1 - 0)]
        rw [hg]
      rw [hstart]
      show ([(0 : ℝ) + 0 * (1 - 0)],
        min_obj (fun _ => (0 : ℝ)) (fun _ => 1) 0 [((0 : ℝ), 1)] [[(0 : ℝ)]]
          [(0 : ℝ) + 0 * (1 - 0)]) = _
      rw [hF0]
    rw [foldl_chooseBest_all_eq _ ([(0 : ℝ) + 0 * (1 - 0)], -(normPdf 0)) _ hall hD
      (by simp)]
  intro h
  have h1 : NextSample gprUnit solverId genSplit
      (addSamples (Clear sessionUsed) samplesAfterClear) = [(0 : ℝ) + 1 * (1 - 0)] := key1
  have h2 : NextSample gprUnit solverId genSplit
      (addSamples (mkBayesianOptimization [((0 : ℝ), 1)] 1 0) samplesAfterClear) =
        [(0 : ℝ) + 0 * (1 - 0)] := key2
  rw [h1, h2] at h
  simp at h
